import Mathlib

/-!
Shallow embedding of `src/lib/stream-workers.js` (class `StreamWorkers`):
a least-loaded worker-pool scheduler for live stream sessions.

State: the `streamWorkers` array, each entry holding a `sessions` registry
mapping a device id (the session key) to the session record `{ streamData }`.
Registries are modelled as association lists without duplicate keys (a JS
object cannot hold two properties with the same key, and the code only ever
inserts a key after a pool-wide lookup failed to find it).

The three event handlers (`start_livestream`, `stop_livestream`, and the
per-worker `message` handler) are modelled as pure functions from pool state
and input to an `Option` of (new state, emitted status events, commands
posted to workers); `none` marks a JS `TypeError` (dereference of a missing
record, or indexing the worker array at -1 when the pool is empty).
-/

namespace StreamWorkers

/-- Lifecycle states reported by workers and emitted externally
(the JS strings "active" / "inactive" / "failed"). -/
inductive SessState where
  | active
  | inactive
  | failed
deriving DecidableEq, Repr

/-- The `streamData` object: session key (`deviceId`), display label
(`deviceName`, coded as a Nat), the opaque stream parameters (`payload`),
and the mutable correlation field `sessionId` written when the worker
reports "active". -/
structure StreamData where
  deviceId : Nat
  deviceName : Nat
  payload : Nat
  sessionId : Option Nat
deriving DecidableEq, Repr

/-- A session record as stored in a worker's registry: `{ streamData }`. -/
structure Session where
  streamData : StreamData
deriving DecidableEq, Repr

/-- One entry of the `streamWorkers` array: its `sessions` registry.
(The `liveCall` worker-thread handle carries no coordinator-visible state;
commands posted to it are collected in the handler outputs.) -/
structure Worker where
  sessions : List (Nat × Session)
deriving DecidableEq, Repr

/-- A worker with an empty registry, as created at pool initialization. -/
def emptyWorker : Worker := ⟨[]⟩

/-- `worker.sessions.hasOwnProperty(deviceId)`. -/
def Worker.hasSession (w : Worker) (d : Nat) : Bool :=
  (w.sessions.lookup d).isSome

/-- `getWorkerId(deviceId)`: `findIndex` over the worker array of the
predicate `worker.sessions.hasOwnProperty(deviceId)`; -1 when absent. -/
def getWorkerId (ws : List Worker) (d : Nat) : Int :=
  match ws.findIdx? (fun w => w.hasSession d) with
  | some i => (i : Int)
  | none => -1

/-- Command kinds posted to a worker thread: `'start'` or `'stop'`. -/
inductive CmdKind where
  | start
  | stop
deriving DecidableEq, Repr

/-- A `postMessage({ command, streamData })` to worker `workerId`. -/
structure WorkerCmd where
  workerId : Nat
  kind : CmdKind
  streamData : StreamData
deriving DecidableEq, Repr

/-- An external `utils.event.emit('livestream_<deviceId>', state)`. -/
structure EmitEv where
  deviceId : Nat
  state : SessState
deriving DecidableEq, Repr

/-- A status report message from a worker thread:
`{ state, liveCallData: { deviceId, sessionId } }`. -/
structure Report where
  deviceId : Nat
  state : SessState
  sessionId : Nat
deriving DecidableEq, Repr

/-- Replace the element at index `i` (out-of-range indices leave the list
unchanged); models an in-place update of one entry of the worker array. -/
def modifyIdx {α : Type} : List α → Nat → (α → α) → List α
  | [], _, _ => []
  | a :: l, 0, f => f a :: l
  | a :: l, n + 1, f => a :: modifyIdx l n f

/-- `delete worker.sessions[d]`. -/
def eraseSession (sess : List (Nat × Session)) (d : Nat) : List (Nat × Session) :=
  sess.filter (fun q => !(q.1 == d))

/-- `worker.sessions[d].streamData.sessionId = sid` on the entry with key
`d` (keys are unique in a registry, so at most one entry is rewritten). -/
def setSessionId (sess : List (Nat × Session)) (d : Nat) (sid : Nat) :
    List (Nat × Session) :=
  sess.map (fun q =>
    if q.1 == d then (q.1, ⟨{ q.2.streamData with sessionId := some sid }⟩) else q)

/-- Line 74: `const workerSessions = this.streamWorkers.map(worker =>
Object.keys(worker.sessions).length)` — the load of every worker. -/
def poolLoads (ws : List Worker) : List Nat :=
  ws.map (fun w => w.sessions.length)

/-- Line 78: `workerSessions.indexOf(fewestSessions)` — index of the first
worker whose load equals the computed minimum `m`. -/
def pickWorker (ws : List Worker) (m : Nat) : Nat :=
  (poolLoads ws).findIdx (fun n => n == m)

/-- The `start_livestream` handler (lines 71-83): if the key is registered
nowhere, compute each worker's load, pick the first worker with the fewest
sessions (`Math.min` of the load array, then `indexOf`), insert the record,
and post a `'start'` command; otherwise do nothing.  `none` models the
`TypeError` thrown on an empty pool (`Math.min()` of no arguments is
`Infinity`, `indexOf` yields -1 and `this.streamWorkers[-1].sessions`
faults). -/
def startLivestream (ws : List Worker) (sd : StreamData) :
    Option (List Worker × List EmitEv × List WorkerCmd) :=
  if getWorkerId ws sd.deviceId < 0 then
    match (poolLoads ws).min? with
    | none => none
    | some fewestSessions =>
      some (modifyIdx ws (pickWorker ws fewestSessions)
              (fun w => ⟨(sd.deviceId, ⟨sd⟩) :: w.sessions⟩),
            [], [⟨pickWorker ws fewestSessions, CmdKind.start, sd⟩])
  else
    some (ws, [], [])

/-- The `stop_livestream` handler (lines 85-95): if some worker holds the
key, post a `'stop'` command carrying the record's stored `streamData` to
that worker (registries untouched); otherwise emit an `'inactive'` event.
`none` models the `TypeError` on a missing record. -/
def stopLivestream (ws : List Worker) (sd : StreamData) :
    Option (List Worker × List EmitEv × List WorkerCmd) :=
  match ws.findIdx? (fun w => w.hasSession sd.deviceId) with
  | some i =>
    match (ws.getD i emptyWorker).sessions.lookup sd.deviceId with
    | some sess => some (ws, [], [⟨i, CmdKind.stop, sess.streamData⟩])
    | none => none
  | none => some (ws, [⟨sd.deviceId, SessState.inactive⟩], [])

/-- The per-worker `message` handler (lines 49-68): locate the owning
worker by `getWorkerId`; if none holds the key the report is dropped.
On `'active'`, emit externally and write the reported `sessionId` onto the
record (`none` models the `TypeError` on a missing record); on
`'inactive'` / `'failed'`, emit externally and delete the record. -/
def handleMessage (ws : List Worker) (r : Report) :
    Option (List Worker × List EmitEv) :=
  match ws.findIdx? (fun w => w.hasSession r.deviceId) with
  | none => some (ws, [])
  | some i =>
    match r.state with
    | SessState.active =>
      match (ws.getD i emptyWorker).sessions.lookup r.deviceId with
      | some _ =>
        some (modifyIdx ws i
                (fun w => ⟨setSessionId w.sessions r.deviceId r.sessionId⟩),
              [⟨r.deviceId, SessState.active⟩])
      | none => none
    | SessState.inactive =>
      some (modifyIdx ws i (fun w => ⟨eraseSession w.sessions r.deviceId⟩),
            [⟨r.deviceId, SessState.inactive⟩])
    | SessState.failed =>
      some (modifyIdx ws i (fun w => ⟨eraseSession w.sessions r.deviceId⟩),
            [⟨r.deviceId, SessState.failed⟩])

/-- Control-plane inputs processed by the coordinator, one at a time. -/
inductive Event where
  | startReq (sd : StreamData)
  | stopReq (sd : StreamData)
  | report (r : Report)
deriving DecidableEq, Repr

/-- One coordinator step: dispatch an event to its handler. -/
def step (ws : List Worker) (e : Event) :
    Option (List Worker × List EmitEv × List WorkerCmd) :=
  match e with
  | Event.startReq sd => startLivestream ws sd
  | Event.stopReq sd => stopLivestream ws sd
  | Event.report r => (handleMessage ws r).map (fun q => (q.1, q.2, []))

/-- Process a sequence of control-plane events, threading the pool state. -/
def runPool : List Worker → List Event → Option (List Worker)
  | ws, [] => some ws
  | ws, e :: es =>
    match step ws e with
    | some (ws', _, _) => runPool ws' es
    | none => none

/-- The pool right after `init()`: `n` workers, each with an empty registry. -/
def initPool (n : Nat) : List Worker :=
  List.replicate n emptyWorker

/-- A pool state reachable from the initial state of an `n`-worker pool by
some sequence of processed control-plane events. -/
def Reachable (n : Nat) (ws : List Worker) : Prop :=
  ∃ es, runPool (initPool n) es = some ws

/-- The pool-wide uniqueness invariant: each session key is registered on
at most one worker. -/
def KeyUnique (ws : List Worker) : Prop :=
  ∀ d, ws.countP (fun w => w.hasSession d) ≤ 1

/-- Every registered record stores the `streamData` of a processed start
request for its key, unchanged except for the mutable `sessionId`
correlation field. -/
def StartStored (es : List Event) (ws : List Worker) : Prop :=
  ∀ w ∈ ws, ∀ q ∈ w.sessions, ∃ sd, Event.startReq sd ∈ es ∧
    q.1 = sd.deviceId ∧
    q.2.streamData = { sd with sessionId := q.2.streamData.sessionId }

/-- `numWorkers` computed by `init()` (line 40):
`cpuCores > 4 ? 4 : Math.round(cpuCores/1.5)`.  For a natural `c`,
`Math.round(c/1.5)` is exactly `⌊(4c+3)/6⌋`: `2c/3` is never a half-integer
(4c even, 6k+3 odd), so no floating-point tie is involved on the relevant
range. -/
def numWorkers (cpuCores : Nat) : Nat :=
  if cpuCores > 4 then 4 else (4 * cpuCores + 3) / 6

/-- Modelled from the spec: the sizing rule as the spec words it,
`N = min(4, round(cores/1.5))`, for comparison with `numWorkers`. -/
def specNumWorkers (cpuCores : Nat) : Nat :=
  min 4 ((4 * cpuCores + 3) / 6)

/-! ### Lemmas about `modifyIdx` -/

theorem length_modifyIdx {α : Type} (l : List α) (i : Nat) (f : α → α) :
    (modifyIdx l i f).length = l.length := by
  induction l generalizing i with
  | nil => rfl
  | cons a l ih =>
    cases i with
    | zero => rfl
    | succ n => simpa [modifyIdx] using ih n

theorem getElem_modifyIdx {α : Type} (l : List α) (i j : Nat) (f : α → α)
    (hj : j < l.length) (hj2 : j < (modifyIdx l i f).length) :
    (modifyIdx l i f).get ⟨j, hj2⟩ =
      if j = i then f (l.get ⟨j, hj⟩) else l.get ⟨j, hj⟩ := by
  induction l generalizing i j with
  | nil => simp at hj
  | cons a l ih =>
    cases i with
    | zero =>
      cases j with
      | zero => simp [modifyIdx]
      | succ m => simp [modifyIdx]
    | succ n =>
      cases j with
      | zero => simp [modifyIdx]
      | succ m =>
        have hm : m < l.length := by simpa using hj
        have hm2 : m < (modifyIdx l n f).length := by
          rw [length_modifyIdx]
          exact hm
        simpa [modifyIdx, Nat.succ_inj] using ih n m hm hm2

theorem getD_modifyIdx_ne {α : Type} (l : List α) (i j : Nat) (f : α → α) (d : α)
    (h : j ≠ i) : (modifyIdx l i f).getD j d = l.getD j d := by
  induction l generalizing i j with
  | nil => rfl
  | cons a l ih =>
    cases i with
    | zero =>
      cases j with
      | zero => exact absurd rfl h
      | succ m => rfl
    | succ n =>
      cases j with
      | zero => rfl
      | succ m => simpa [modifyIdx] using ih n m (by omega)

theorem getD_modifyIdx_self {α : Type} (l : List α) (i : Nat) (f : α → α) (d : α)
    (hi : i < l.length) : (modifyIdx l i f).getD i d = f (l.getD i d) := by
  have h1 : i < (modifyIdx l i f).length := by rw [length_modifyIdx]; exact hi
  rw [List.getD_eq_getElem _ _ h1, List.getD_eq_getElem _ _ hi]
  simpa using getElem_modifyIdx l i i f hi h1

theorem mem_modifyIdx {α : Type} {l : List α} {i : Nat} {f : α → α} {x : α}
    (h : x ∈ modifyIdx l i f) :
    x ∈ l ∨ ∃ hi : i < l.length, x = f (l[i]) := by
  induction l generalizing i with
  | nil => simp [modifyIdx] at h
  | cons a l ih =>
    cases i with
    | zero =>
      rcases List.mem_cons.mp h with h0 | h0
      · exact Or.inr ⟨by simp, by simpa using h0⟩
      · exact Or.inl (List.mem_cons_of_mem _ h0)
    | succ n =>
      rcases List.mem_cons.mp h with h0 | h0
      · exact Or.inl (h0 ▸ List.mem_cons_self _ _)
      · rcases ih h0 with h1 | ⟨hn, h1⟩
        · exact Or.inl (List.mem_cons_of_mem _ h1)
        · exact Or.inr ⟨by simpa using Nat.succ_lt_succ hn, by simpa using h1⟩

theorem countP_modifyIdx_of_zero {α : Type} (p : α → Bool) (l : List α) (i : Nat)
    (f : α → α) (h : l.countP p = 0) : (modifyIdx l i f).countP p ≤ 1 := by
  induction l generalizing i with
  | nil => simp [modifyIdx]
  | cons a l ih =>
    rw [List.countP_cons] at h
    have hl : l.countP p = 0 := by omega
    have hite : (if p a = true then 1 else 0) = 0 := by omega
    cases i with
    | zero =>
      show ((f a :: l).countP p) ≤ 1
      rw [List.countP_cons, hl]
      split <;> omega
    | succ n =>
      show ((a :: modifyIdx l n f).countP p) ≤ 1
      rw [List.countP_cons, hite]
      simpa using ih n hl

theorem countP_modifyIdx_congr {α : Type} (p : α → Bool) (l : List α) (i : Nat)
    (f : α → α) (hf : ∀ a, p (f a) = p a) :
    (modifyIdx l i f).countP p = l.countP p := by
  induction l generalizing i with
  | nil => rfl
  | cons a l ih =>
    cases i with
    | zero =>
      show ((f a :: l).countP p) = _
      rw [List.countP_cons, List.countP_cons, hf]
    | succ n =>
      show ((a :: modifyIdx l n f).countP p) = _
      rw [List.countP_cons, List.countP_cons, ih]

theorem countP_modifyIdx_mono {α : Type} (p : α → Bool) (l : List α) (i : Nat)
    (f : α → α) (hf : ∀ a, p (f a) = true → p a = true) :
    (modifyIdx l i f).countP p ≤ l.countP p := by
  induction l generalizing i with
  | nil => simp [modifyIdx]
  | cons a l ih =>
    cases i with
    | zero =>
      show ((f a :: l).countP p) ≤ _
      rw [List.countP_cons, List.countP_cons]
      by_cases hfa : p (f a) = true
      · rw [if_pos hfa, if_pos (hf a hfa)]
      · rw [if_neg hfa]
        split <;> omega
    | succ n =>
      show ((a :: modifyIdx l n f).countP p) ≤ _
      rw [List.countP_cons, List.countP_cons]
      have := ih n
      omega

theorem countP_modifyIdx_zero_out {α : Type} (p : α → Bool) (l : List α) (i : Nat)
    (f : α → α) (hc : l.countP p ≤ 1) (hi : i < l.length)
    (hpi : p (l[i]) = true) (hf : ∀ a, p (f a) = false) :
    (modifyIdx l i f).countP p = 0 := by
  induction l generalizing i with
  | nil => simp at hi
  | cons a l ih =>
    rw [List.countP_cons] at hc
    cases i with
    | zero =>
      have hpa : p a = true := by simpa using hpi
      rw [if_pos hpa] at hc
      show ((f a :: l).countP p) = 0
      rw [List.countP_cons, if_neg (by simp [hf])]
      omega
    | succ n =>
      have hn : n < l.length := by simpa using hi
      have hpn : p (l[n]) = true := by simpa using hpi
      have hl1 : 0 < l.countP p :=
        List.countP_pos_iff.mpr ⟨l[n], List.getElem_mem hn, hpn⟩
      have hpa : ¬ p a = true := by
        intro hpa
        rw [if_pos hpa] at hc
        omega
      rw [if_neg hpa] at hc
      show ((a :: modifyIdx l n f).countP p) = 0
      rw [List.countP_cons, if_neg hpa]
      have := ih n (by omega) hn hpn
      omega

/-! ### Lemmas about the registry operations -/

theorem lookup_cons_ne (sess : List (Nat × Session)) {d k : Nat} (s : Session)
    (h : d ≠ k) : ((k, s) :: sess).lookup d = sess.lookup d := by
  have hbeq : (d == k) = false := by simpa using h
  rw [List.lookup_cons, hbeq]

theorem lookup_eraseSession_self (sess : List (Nat × Session)) (d : Nat) :
    (eraseSession sess d).lookup d = none := by
  induction sess with
  | nil => rfl
  | cons q sess ih =>
    obtain ⟨k, s⟩ := q
    by_cases h : k = d
    · have hbeq : (k == d) = true := by simpa using h
      simpa only [eraseSession, List.filter_cons, hbeq, Bool.not_true,
        Bool.false_eq_true, if_false] using ih
    · have hbeq : (k == d) = false := by simpa using h
      simp only [eraseSession, List.filter_cons, hbeq, Bool.not_false, if_true]
      rw [lookup_cons_ne _ _ (fun hh => h hh.symm)]
      exact ih

theorem lookup_eraseSession_ne (sess : List (Nat × Session)) {d k : Nat}
    (h : d ≠ k) : (eraseSession sess k).lookup d = sess.lookup d := by
  induction sess with
  | nil => rfl
  | cons q sess ih =>
    obtain ⟨k', s⟩ := q
    by_cases h1 : k' = k
    · have hbeq : (k' == k) = true := by simpa using h1
      simp only [eraseSession, List.filter_cons, hbeq, Bool.not_true,
        Bool.false_eq_true, if_false]
      show (eraseSession sess k).lookup d = ((k', s) :: sess).lookup d
      rw [ih, lookup_cons_ne _ _ (h1 ▸ h)]
    · have hbeq : (k' == k) = false := by simpa using h1
      simp only [eraseSession, List.filter_cons, hbeq, Bool.not_false, if_true]
      by_cases h2 : d = k'
      · subst h2
        rw [List.lookup_cons_self, List.lookup_cons_self]
      · rw [lookup_cons_ne _ _ h2, lookup_cons_ne _ _ h2]
        exact ih

theorem lookup_setSessionId_ne (sess : List (Nat × Session)) {d k : Nat}
    (sid : Nat) (h : d ≠ k) :
    (setSessionId sess k sid).lookup d = sess.lookup d := by
  induction sess with
  | nil => rfl
  | cons q sess ih =>
    obtain ⟨k', s⟩ := q
    by_cases h1 : k' = k
    · have hbeq : (k' == k) = true := by simpa using h1
      simp only [setSessionId, List.map_cons, hbeq, if_true]
      rw [lookup_cons_ne _ _ (h1 ▸ h), lookup_cons_ne _ _ (h1 ▸ h)]
      exact ih
    · have hbeq : (k' == k) = false := by simpa using h1
      simp only [setSessionId, List.map_cons, hbeq, Bool.false_eq_true, if_false]
      by_cases h2 : d = k'
      · subst h2
        rw [List.lookup_cons_self, List.lookup_cons_self]
      · rw [lookup_cons_ne _ _ h2, lookup_cons_ne _ _ h2]
        exact ih

theorem lookup_setSessionId_self (sess : List (Nat × Session)) (k sid : Nat)
    (s : Session) (h : sess.lookup k = some s) :
    (setSessionId sess k sid).lookup k =
      some ⟨{ s.streamData with sessionId := some sid }⟩ := by
  induction sess with
  | nil => simp at h
  | cons q sess ih =>
    obtain ⟨k', s'⟩ := q
    by_cases h1 : k = k'
    · subst h1
      rw [List.lookup_cons_self, Option.some_inj] at h
      have hbeq : (k == k) = true := by simp
      simp only [setSessionId, List.map_cons, hbeq, if_true]
      rw [List.lookup_cons_self, h]
    · have hbeq : (k' == k) = false := by
        simpa using fun hh => h1 hh.symm
      simp only [setSessionId, List.map_cons, hbeq, Bool.false_eq_true, if_false]
      rw [lookup_cons_ne _ _ h1] at h
      rw [lookup_cons_ne _ _ h1]
      exact ih h

theorem lookup_setSessionId_none (sess : List (Nat × Session)) (k sid : Nat)
    (h : sess.lookup k = none) :
    (setSessionId sess k sid).lookup k = none := by
  induction sess with
  | nil => rfl
  | cons q sess ih =>
    obtain ⟨k', s'⟩ := q
    by_cases h1 : k = k'
    · subst h1
      rw [List.lookup_cons_self] at h
      exact absurd h (by simp)
    · have hbeq : (k' == k) = false := by
        simpa using fun hh => h1 hh.symm
      simp only [setSessionId, List.map_cons, hbeq, Bool.false_eq_true, if_false]
      rw [lookup_cons_ne _ _ h1] at h
      rw [lookup_cons_ne _ _ h1]
      exact ih h

theorem isSome_lookup_setSessionId (sess : List (Nat × Session)) (d k sid : Nat) :
    ((setSessionId sess k sid).lookup d).isSome = (sess.lookup d).isSome := by
  by_cases h : d = k
  · subst h
    cases hl : sess.lookup d with
    | none => rw [lookup_setSessionId_none sess d sid hl]
    | some s => rw [lookup_setSessionId_self sess d sid s hl]; rfl
  · rw [lookup_setSessionId_ne sess sid h]

theorem hasSession_eraseSession (w : Worker) (d k : Nat) :
    Worker.hasSession ⟨eraseSession w.sessions k⟩ d = true →
      w.hasSession d = true := by
  intro h
  by_cases hdk : d = k
  · subst hdk
    simp [Worker.hasSession, lookup_eraseSession_self] at h
  · simpa [Worker.hasSession, lookup_eraseSession_ne _ hdk] using h

/-! ### Lemmas about `getWorkerId` -/

theorem getWorkerId_neg_iff (ws : List Worker) (d : Nat) :
    getWorkerId ws d < 0 ↔ ws.findIdx? (fun w => w.hasSession d) = none := by
  unfold getWorkerId
  cases h : ws.findIdx? (fun w => w.hasSession d) with
  | none => simp
  | some i => simp

theorem getWorkerId_eq_neg_one_iff (ws : List Worker) (d : Nat) :
    getWorkerId ws d = -1 ↔ ws.findIdx? (fun w => w.hasSession d) = none := by
  unfold getWorkerId
  cases h : ws.findIdx? (fun w => w.hasSession d) with
  | none => simp
  | some i => simp

theorem getWorkerId_eq_neg_one_of_countP_zero (ws : List Worker) (d : Nat)
    (h : ws.countP (fun w => w.hasSession d) = 0) : getWorkerId ws d = -1 := by
  rw [getWorkerId_eq_neg_one_iff, List.findIdx?_eq_none_iff]
  intro w hw
  have := List.countP_eq_zero.mp h w hw
  simpa using this

theorem countP_zero_of_getWorkerId_neg (ws : List Worker) (d : Nat)
    (h : getWorkerId ws d < 0) : ws.countP (fun w => w.hasSession d) = 0 := by
  rw [getWorkerId_neg_iff] at h
  rw [List.countP_eq_zero]
  intro w hw
  have := List.findIdx?_eq_none_iff.mp h w hw
  simpa using this

/-! ### Characterization of the handlers, branch by branch -/

theorem startLivestream_absent {ws : List Worker} {sd : StreamData} {m : Nat}
    (habs : getWorkerId ws sd.deviceId < 0)
    (hmin : (poolLoads ws).min? = some m) :
    startLivestream ws sd =
      some (modifyIdx ws (pickWorker ws m)
              (fun w => ⟨(sd.deviceId, ⟨sd⟩) :: w.sessions⟩),
            [], [⟨pickWorker ws m, CmdKind.start, sd⟩]) := by
  unfold startLivestream
  rw [if_pos habs, hmin]

theorem startLivestream_present {ws : List Worker} {sd : StreamData}
    (hp : ¬ getWorkerId ws sd.deviceId < 0) :
    startLivestream ws sd = some (ws, [], []) := by
  unfold startLivestream
  rw [if_neg hp]

theorem stopLivestream_found {ws : List Worker} {sd : StreamData} {i : Nat}
    (hfound : ws.findIdx? (fun w => w.hasSession sd.deviceId) = some i) :
    ∃ sess, (ws.getD i emptyWorker).sessions.lookup sd.deviceId = some sess ∧
      stopLivestream ws sd = some (ws, [], [⟨i, CmdKind.stop, sess.streamData⟩]) := by
  obtain ⟨hi, hp, -⟩ := List.findIdx?_eq_some_iff_getElem.mp hfound
  rw [Worker.hasSession] at hp
  have hgd : ws.getD i emptyWorker = ws[i] := List.getD_eq_getElem _ _ hi
  obtain ⟨sess, hsess⟩ := Option.isSome_iff_exists.mp hp
  refine ⟨sess, by rw [hgd]; exact hsess, ?_⟩
  unfold stopLivestream
  simp only [hfound, hgd, hsess]

theorem stopLivestream_notFound {ws : List Worker} {sd : StreamData}
    (hnone : ws.findIdx? (fun w => w.hasSession sd.deviceId) = none) :
    stopLivestream ws sd = some (ws, [⟨sd.deviceId, SessState.inactive⟩], []) := by
  unfold stopLivestream
  rw [hnone]

theorem handleMessage_notFound {ws : List Worker} {r : Report}
    (hnone : ws.findIdx? (fun w => w.hasSession r.deviceId) = none) :
    handleMessage ws r = some (ws, []) := by
  unfold handleMessage
  rw [hnone]

theorem handleMessage_active {ws : List Worker} {r : Report} {i : Nat}
    (hfound : ws.findIdx? (fun w => w.hasSession r.deviceId) = some i)
    (hst : r.state = SessState.active) :
    handleMessage ws r =
      some (modifyIdx ws i
              (fun w => ⟨setSessionId w.sessions r.deviceId r.sessionId⟩),
            [⟨r.deviceId, SessState.active⟩]) := by
  obtain ⟨hi, hp, -⟩ := List.findIdx?_eq_some_iff_getElem.mp hfound
  rw [Worker.hasSession] at hp
  have hgd : ws.getD i emptyWorker = ws[i] := List.getD_eq_getElem _ _ hi
  obtain ⟨sess, hsess⟩ := Option.isSome_iff_exists.mp hp
  unfold handleMessage
  simp only [hfound, hst, hgd, hsess]

theorem handleMessage_inactive {ws : List Worker} {r : Report} {i : Nat}
    (hfound : ws.findIdx? (fun w => w.hasSession r.deviceId) = some i)
    (hst : r.state = SessState.inactive) :
    handleMessage ws r =
      some (modifyIdx ws i (fun w => ⟨eraseSession w.sessions r.deviceId⟩),
            [⟨r.deviceId, SessState.inactive⟩]) := by
  unfold handleMessage
  rw [hfound, hst]

theorem handleMessage_failed {ws : List Worker} {r : Report} {i : Nat}
    (hfound : ws.findIdx? (fun w => w.hasSession r.deviceId) = some i)
    (hst : r.state = SessState.failed) :
    handleMessage ws r =
      some (modifyIdx ws i (fun w => ⟨eraseSession w.sessions r.deviceId⟩),
            [⟨r.deviceId, SessState.failed⟩]) := by
  unfold handleMessage
  rw [hfound, hst]

/-! ### Shape of any successful step -/

theorem step_some_cases {ws : List Worker} {e : Event}
    {out : List Worker × List EmitEv × List WorkerCmd}
    (h : step ws e = some out) :
    out.1 = ws ∨
    (∃ sd i, e = Event.startReq sd ∧ getWorkerId ws sd.deviceId < 0 ∧
      out.1 = modifyIdx ws i (fun w => ⟨(sd.deviceId, ⟨sd⟩) :: w.sessions⟩)) ∨
    (∃ d sid i,
      out.1 = modifyIdx ws i (fun w => ⟨setSessionId w.sessions d sid⟩)) ∨
    (∃ d i, out.1 = modifyIdx ws i (fun w => ⟨eraseSession w.sessions d⟩)) := by
  cases e with
  | startReq sd =>
    replace h : startLivestream ws sd = some out := h
    by_cases habs : getWorkerId ws sd.deviceId < 0
    · cases hmin : (poolLoads ws).min? with
      | none =>
        unfold startLivestream at h
        rw [if_pos habs, hmin] at h
        exact absurd h (by simp)
      | some m =>
        rw [startLivestream_absent habs hmin] at h
        obtain rfl := Option.some_inj.mp h
        exact Or.inr (Or.inl ⟨sd, pickWorker ws m, rfl, habs, rfl⟩)
    · rw [startLivestream_present habs] at h
      obtain rfl := Option.some_inj.mp h
      exact Or.inl rfl
  | stopReq sd =>
    replace h : stopLivestream ws sd = some out := h
    cases hfi : ws.findIdx? (fun w => w.hasSession sd.deviceId) with
    | none =>
      rw [stopLivestream_notFound hfi] at h
      obtain rfl := Option.some_inj.mp h
      exact Or.inl rfl
    | some i =>
      obtain ⟨sess, hsess, heq⟩ := stopLivestream_found hfi
      rw [heq] at h
      obtain rfl := Option.some_inj.mp h
      exact Or.inl rfl
  | report r =>
    replace h : (handleMessage ws r).map (fun q => (q.1, q.2, [])) = some out := h
    cases hm : handleMessage ws r with
    | none => rw [hm] at h; exact absurd h (by simp)
    | some q =>
      rw [hm] at h
      obtain rfl := Option.some_inj.mp h
      cases hfi : ws.findIdx? (fun w => w.hasSession r.deviceId) with
      | none =>
        rw [handleMessage_notFound hfi] at hm
        obtain rfl := Option.some_inj.mp hm
        exact Or.inl rfl
      | some i =>
        cases hst : r.state with
        | active =>
          rw [handleMessage_active hfi hst] at hm
          obtain rfl := Option.some_inj.mp hm
          exact Or.inr (Or.inr (Or.inl ⟨r.deviceId, r.sessionId, i, rfl⟩))
        | inactive =>
          rw [handleMessage_inactive hfi hst] at hm
          obtain rfl := Option.some_inj.mp hm
          exact Or.inr (Or.inr (Or.inr ⟨r.deviceId, i, rfl⟩))
        | failed =>
          rw [handleMessage_failed hfi hst] at hm
          obtain rfl := Option.some_inj.mp hm
          exact Or.inr (Or.inr (Or.inr ⟨r.deviceId, i, rfl⟩))

theorem step_some_length {ws : List Worker} {e : Event}
    {out : List Worker × List EmitEv × List WorkerCmd}
    (h : step ws e = some out) : out.1.length = ws.length := by
  rcases step_some_cases h with h1 | ⟨sd, i, -, -, h1⟩ | ⟨d, sid, i, h1⟩ | ⟨d, i, h1⟩ <;>
    rw [h1]
  all_goals exact length_modifyIdx ws _ _

/-! ### The key-uniqueness invariant -/

theorem keyUnique_initPool (n : Nat) : KeyUnique (initPool n) := by
  intro d
  have hz : (initPool n).countP (fun w => w.hasSession d) = 0 := by
    rw [List.countP_eq_zero]
    intro w hw
    obtain rfl := List.eq_of_mem_replicate hw
    simp [Worker.hasSession, emptyWorker]
  omega

theorem step_some_keyUnique {ws : List Worker} {e : Event}
    {out : List Worker × List EmitEv × List WorkerCmd}
    (h : step ws e = some out) (hk : KeyUnique ws) : KeyUnique out.1 := by
  rcases step_some_cases h with h1 | ⟨sd, i, -, habs, h1⟩ | ⟨d, sid, i, h1⟩ | ⟨d, i, h1⟩
  · rw [h1]; exact hk
  · rw [h1]
    intro d
    by_cases hd : d = sd.deviceId
    · subst hd
      exact countP_modifyIdx_of_zero _ _ _ _
        (countP_zero_of_getWorkerId_neg ws sd.deviceId habs)
    · have hcongr : ∀ w : Worker,
          Worker.hasSession ⟨(sd.deviceId, ⟨sd⟩) :: w.sessions⟩ d =
            w.hasSession d := by
        intro w
        unfold Worker.hasSession
        rw [lookup_cons_ne _ _ hd]
      rw [countP_modifyIdx_congr _ _ _ _ hcongr]
      exact hk d
  · rw [h1]
    intro d0
    have hcongr : ∀ w : Worker,
        Worker.hasSession ⟨setSessionId w.sessions d sid⟩ d0 = w.hasSession d0 := by
      intro w
      unfold Worker.hasSession
      exact isSome_lookup_setSessionId w.sessions d0 d sid
    rw [countP_modifyIdx_congr _ _ _ _ hcongr]
    exact hk d0
  · rw [h1]
    intro d0
    exact le_trans
      (countP_modifyIdx_mono _ _ _ _ (fun w => hasSession_eraseSession w d0 d))
      (hk d0)

theorem runPool_keyUnique {ws : List Worker} {es : List Event} {ws' : List Worker}
    (h : runPool ws es = some ws') (hk : KeyUnique ws) : KeyUnique ws' := by
  induction es generalizing ws with
  | nil =>
    obtain rfl := Option.some_inj.mp h
    exact hk
  | cons e es ih =>
    unfold runPool at h
    cases hs : step ws e with
    | none => rw [hs] at h; exact absurd h (by simp)
    | some out =>
      obtain ⟨ws1, ems, cs⟩ := out
      rw [hs] at h
      exact ih h (step_some_keyUnique hs hk)

theorem runPool_length {ws : List Worker} {es : List Event} {ws' : List Worker}
    (h : runPool ws es = some ws') : ws'.length = ws.length := by
  induction es generalizing ws with
  | nil =>
    obtain rfl := Option.some_inj.mp h
    rfl
  | cons e es ih =>
    unfold runPool at h
    cases hs : step ws e with
    | none => rw [hs] at h; exact absurd h (by simp)
    | some out =>
      obtain ⟨ws1, ems, cs⟩ := out
      rw [hs] at h
      rw [ih h]
      exact step_some_length hs

theorem reachable_keyUnique {n : Nat} {ws : List Worker}
    (h : Reachable n ws) : KeyUnique ws := by
  obtain ⟨es, hrun⟩ := h
  exact runPool_keyUnique hrun (keyUnique_initPool n)

theorem reachable_length {n : Nat} {ws : List Worker}
    (h : Reachable n ws) : ws.length = n := by
  obtain ⟨es, hrun⟩ := h
  rw [runPool_length hrun]
  simp [initPool]

/-! ### Records originate from start requests -/

theorem mem_setSessionId {sess : List (Nat × Session)} {d sid : Nat}
    {q' : Nat × Session} (h : q' ∈ setSessionId sess d sid) :
    ∃ q ∈ sess, q'.1 = q.1 ∧
      (q'.2 = q.2 ∨ q'.2 = ⟨{ q.2.streamData with sessionId := some sid }⟩) := by
  obtain ⟨q, hq, hq'⟩ := List.mem_map.mp h
  by_cases hd : (q.1 == d) = true
  · rw [if_pos hd] at hq'
    exact ⟨q, hq, by rw [← hq'], Or.inr (by rw [← hq'])⟩
  · rw [if_neg hd] at hq'
    exact ⟨q, hq, by rw [hq'], Or.inl (by rw [hq'])⟩

theorem startStored_append {es es' : List Event} {ws : List Worker}
    (h : StartStored es ws) : StartStored (es ++ es') ws := by
  intro w hw q hq
  obtain ⟨sd, hmem, h1, h2⟩ := h w hw q hq
  exact ⟨sd, List.mem_append_left _ hmem, h1, h2⟩

theorem startStored_initPool (es : List Event) (n : Nat) :
    StartStored es (initPool n) := by
  intro w hw q hq
  obtain rfl := List.eq_of_mem_replicate hw
  simp [emptyWorker] at hq

theorem step_some_startStored {ws : List Worker} {e : Event}
    {out : List Worker × List EmitEv × List WorkerCmd} {es : List Event}
    (h : step ws e = some out) (hs : StartStored es ws) :
    StartStored (es ++ [e]) out.1 := by
  rcases step_some_cases h with h1 | ⟨sd, i, he, -, h1⟩ | ⟨d, sid, i, h1⟩ | ⟨d, i, h1⟩
  · rw [h1]; exact startStored_append hs
  · rw [h1]
    intro w hw q hq
    rcases mem_modifyIdx hw with hw1 | ⟨hi, rfl⟩
    · exact startStored_append hs w hw1 q hq
    · rcases List.mem_cons.mp hq with rfl | hq1
      · refine ⟨sd, List.mem_append_right _ (by rw [he]; exact List.mem_singleton_self _),
          rfl, rfl⟩
      · exact startStored_append hs ws[i] (List.getElem_mem hi) q hq1
  · rw [h1]
    intro w hw q hq
    rcases mem_modifyIdx hw with hw1 | ⟨hi, rfl⟩
    · exact startStored_append hs w hw1 q hq
    · obtain ⟨q0, hq0, hk, hrec⟩ := mem_setSessionId hq
      obtain ⟨sd0, hsd0, hk0, hrec0⟩ := hs ws[i] (List.getElem_mem hi) q0 hq0
      refine ⟨sd0, List.mem_append_left _ hsd0, by rw [hk]; exact hk0, ?_⟩
      rcases hrec with h2 | h2
      · rw [h2]; exact hrec0
      · rw [h2]
        show ({ q0.2.streamData with sessionId := some sid } : StreamData) = _
        rw [hrec0]
  · rw [h1]
    intro w hw q hq
    rcases mem_modifyIdx hw with hw1 | ⟨hi, rfl⟩
    · exact startStored_append hs w hw1 q hq
    · exact startStored_append hs ws[i] (List.getElem_mem hi) q
        (List.mem_of_mem_filter hq)

theorem runPool_startStored {ws : List Worker} {es0 es : List Event}
    {ws' : List Worker} (h : runPool ws es = some ws')
    (hs : StartStored es0 ws) : StartStored (es0 ++ es) ws' := by
  induction es generalizing ws es0 with
  | nil =>
    obtain rfl := Option.some_inj.mp h
    simpa using hs
  | cons e es ih =>
    unfold runPool at h
    cases hstep : step ws e with
    | none => rw [hstep] at h; exact absurd h (by simp)
    | some out =>
      obtain ⟨ws1, ems, cs⟩ := out
      rw [hstep] at h
      have h2 := ih h (step_some_startStored hstep hs)
      rw [List.append_assoc] at h2
      simpa using h2

/-! ### A step on a non-empty pool never faults -/

theorem step_isSome_of_ne_nil {ws : List Worker} (hne : ws ≠ []) (e : Event) :
    (step ws e).isSome = true := by
  cases e with
  | startReq sd =>
    show (startLivestream ws sd).isSome = true
    by_cases habs : getWorkerId ws sd.deviceId < 0
    · cases hmin : (poolLoads ws).min? with
      | none =>
        rw [List.min?_eq_none_iff] at hmin
        exact absurd (by simpa [poolLoads] using hmin) hne
      | some m => rw [startLivestream_absent habs hmin]; rfl
    · rw [startLivestream_present habs]; rfl
  | stopReq sd =>
    show (stopLivestream ws sd).isSome = true
    cases hfi : ws.findIdx? (fun w => w.hasSession sd.deviceId) with
    | none => rw [stopLivestream_notFound hfi]; rfl
    | some i =>
      obtain ⟨sess, hsess, heq⟩ := stopLivestream_found hfi
      rw [heq]; rfl
  | report r =>
    show ((handleMessage ws r).map (fun q => (q.1, q.2, []))).isSome = true
    cases hfi : ws.findIdx? (fun w => w.hasSession r.deviceId) with
    | none => rw [handleMessage_notFound hfi]; rfl
    | some i =>
      cases hst : r.state with
      | active => rw [handleMessage_active hfi hst]; rfl
      | inactive => rw [handleMessage_inactive hfi hst]; rfl
      | failed => rw [handleMessage_failed hfi hst]; rfl

/-! ### Properties of the least-load selection -/

theorem pickWorker_lt_length {ws : List Worker} {m : Nat}
    (hmin : (poolLoads ws).min? = some m) : pickWorker ws m < ws.length := by
  have hmem : m ∈ poolLoads ws := (List.min?_eq_some_iff'.mp hmin).1
  have h := List.findIdx_lt_length_of_exists (p := fun n => n == m)
    ⟨m, hmem, beq_self_eq_true m⟩
  simpa [pickWorker, poolLoads] using h

theorem load_pickWorker {ws : List Worker} {m : Nat}
    (hmin : (poolLoads ws).min? = some m) :
    (ws.getD (pickWorker ws m) emptyWorker).sessions.length = m := by
  have hlt : pickWorker ws m < ws.length := pickWorker_lt_length hmin
  have hlt2 : (poolLoads ws).findIdx (fun n => n == m) < (poolLoads ws).length := by
    simpa [pickWorker, poolLoads] using hlt
  have h := List.findIdx_getElem (w := hlt2)
  rw [List.getD_eq_getElem _ _ hlt]
  have h2 : (poolLoads ws)[(poolLoads ws).findIdx (fun n => n == m)] =
      (ws[pickWorker ws m]).sessions.length := by
    simp [poolLoads, pickWorker]
  rw [h2] at h
  simpa using h

theorem min_load_le {ws : List Worker} {m : Nat}
    (hmin : (poolLoads ws).min? = some m) (j : Nat) (hj : j < ws.length) :
    m ≤ (ws.getD j emptyWorker).sessions.length := by
  have hb := (List.min?_eq_some_iff'.mp hmin).2
  rw [List.getD_eq_getElem _ _ hj]
  have hj2 : j < (poolLoads ws).length := by simpa [poolLoads] using hj
  have hmem : (ws[j]).sessions.length ∈ poolLoads ws := by
    have := List.getElem_mem hj2
    simpa [poolLoads] using this
  exact hb _ hmem

theorem pickWorker_first {ws : List Worker} {m : Nat}
    (hmin : (poolLoads ws).min? = some m) (j : Nat) (hj : j < pickWorker ws m) :
    m < (ws.getD j emptyWorker).sessions.length := by
  have hlt : pickWorker ws m < ws.length := pickWorker_lt_length hmin
  have hjlen : j < ws.length := Nat.lt_trans hj hlt
  have hjlen2 : j < (poolLoads ws).length := by simpa [poolLoads] using hjlen
  have hj3 : j < (poolLoads ws).findIdx (fun n => n == m) := by
    simpa [pickWorker] using hj
  have hne := List.not_of_lt_findIdx hj3
  have hloadj : (poolLoads ws)[j] = (ws[j]).sessions.length := by simp [poolLoads]
  rw [hloadj] at hne
  have hge := min_load_le hmin j hjlen
  rw [List.getD_eq_getElem _ _ hjlen] at hge ⊢
  have : (ws[j]).sessions.length ≠ m := by simpa using hne
  omega

/-! ### Further support lemmas -/

theorem countP_modifyIdx_one {α : Type} (p : α → Bool) (l : List α) (i : Nat)
    (f : α → α) (h0 : l.countP p = 0) (hi : i < l.length)
    (hf : ∀ a, p (f a) = true) : (modifyIdx l i f).countP p = 1 := by
  induction l generalizing i with
  | nil => simp at hi
  | cons a l ih =>
    rw [List.countP_cons] at h0
    have hl : l.countP p = 0 := by omega
    have hite : (if p a = true then 1 else 0) = 0 := by omega
    cases i with
    | zero =>
      show ((f a :: l).countP p) = 1
      rw [List.countP_cons, hl, if_pos (hf a)]
    | succ n =>
      have hn : n < l.length := by simpa using hi
      show ((a :: modifyIdx l n f).countP p) = 1
      rw [List.countP_cons, hite, ih n hl hn]

theorem hasSession_insert_self (w : Worker) (sd : StreamData) :
    Worker.hasSession ⟨(sd.deviceId, ⟨sd⟩) :: w.sessions⟩ sd.deviceId = true := by
  unfold Worker.hasSession
  rw [List.lookup_cons_self]
  rfl

theorem hasSession_eraseSession_self (w : Worker) (k : Nat) :
    Worker.hasSession ⟨eraseSession w.sessions k⟩ k = false := by
  unfold Worker.hasSession
  rw [lookup_eraseSession_self]
  rfl

theorem getWorkerId_not_neg_of_countP_pos (ws : List Worker) (d : Nat)
    (h : 0 < ws.countP (fun w => w.hasSession d)) : ¬ getWorkerId ws d < 0 := by
  intro hneg
  rw [countP_zero_of_getWorkerId_neg ws d hneg] at h
  omega

theorem findIdx?_getElem_hasSession {ws : List Worker} {d : Nat} {i : Nat}
    (hfound : ws.findIdx? (fun w => w.hasSession d) = some i) :
    i < ws.length ∧ (ws.getD i emptyWorker).hasSession d = true := by
  obtain ⟨hi, hp, -⟩ := List.findIdx?_eq_some_iff_getElem.mp hfound
  exact ⟨hi, by rw [List.getD_eq_getElem _ _ hi]; simpa using hp⟩

theorem countP_pos_of_findIdx?_some {ws : List Worker} {d : Nat} {i : Nat}
    (hfound : ws.findIdx? (fun w => w.hasSession d) = some i) :
    0 < ws.countP (fun w => w.hasSession d) := by
  obtain ⟨hi, hp, -⟩ := List.findIdx?_eq_some_iff_getElem.mp hfound
  exact List.countP_pos_iff.mpr ⟨ws[i], List.getElem_mem hi, hp⟩

/-! ## The claims -/

/-- C1: in every pool state reachable from the initial all-empty pool by any
sequence of processed start requests, stop requests and worker status
reports, each session key is registered on at most one worker. -/
theorem C1_key_unique_invariant (n : Nat) (ws : List Worker)
    (h : Reachable n ws) : KeyUnique ws :=
  reachable_keyUnique h

/-- C1 witness: the invariant instantiated on the 2-worker pool after one
processed start request. -/
theorem C1_key_unique_invariant_witness :
    KeyUnique [⟨[(10, ⟨⟨10, 0, 100, none⟩⟩)]⟩, ⟨[]⟩] :=
  C1_key_unique_invariant 2 [⟨[(10, ⟨⟨10, 0, 100, none⟩⟩)]⟩, ⟨[]⟩]
    ⟨[Event.startReq ⟨10, 0, 100, none⟩], by decide⟩

/-- C2: a start request for a key registered on no worker assigns the
session to a worker of minimum load, breaking ties by lowest pool index:
the insertion and the start command both target an index `i` whose load is
≤ every worker's load, and every earlier index has strictly greater load. -/
theorem C2_least_load_placement (ws : List Worker) (sd : StreamData)
    (hne : ws ≠ []) (habs : getWorkerId ws sd.deviceId < 0) :
    ∃ i, i < ws.length ∧
      startLivestream ws sd =
        some (modifyIdx ws i (fun w => ⟨(sd.deviceId, ⟨sd⟩) :: w.sessions⟩),
              [], [⟨i, CmdKind.start, sd⟩]) ∧
      (∀ j, j < ws.length →
        (ws.getD i emptyWorker).sessions.length ≤
          (ws.getD j emptyWorker).sessions.length) ∧
      (∀ j, j < i →
        (ws.getD i emptyWorker).sessions.length <
          (ws.getD j emptyWorker).sessions.length) := by
  cases hmin : (poolLoads ws).min? with
  | none =>
    rw [List.min?_eq_none_iff] at hmin
    exact absurd (by simpa [poolLoads] using hmin) hne
  | some m =>
    refine ⟨pickWorker ws m, pickWorker_lt_length hmin,
      startLivestream_absent habs hmin, ?_, ?_⟩
    · intro j hj
      rw [load_pickWorker hmin]
      exact min_load_le hmin j hj
    · intro j hj
      rw [load_pickWorker hmin]
      exact pickWorker_first hmin j hj

/-- C2 witness: on a 2-worker pool with loads 1 and 0, a fresh start is
placed on worker 1. -/
theorem C2_least_load_placement_witness :
    ∃ i, i < ([⟨[(10, ⟨⟨10, 0, 100, none⟩⟩)]⟩, ⟨[]⟩] : List Worker).length ∧
      startLivestream [⟨[(10, ⟨⟨10, 0, 100, none⟩⟩)]⟩, ⟨[]⟩] ⟨11, 0, 101, none⟩ =
        some (modifyIdx [⟨[(10, ⟨⟨10, 0, 100, none⟩⟩)]⟩, ⟨[]⟩] i
                (fun w => ⟨((⟨11, 0, 101, none⟩ : StreamData).deviceId,
                  ⟨⟨11, 0, 101, none⟩⟩) :: w.sessions⟩),
              [], [⟨i, CmdKind.start, ⟨11, 0, 101, none⟩⟩]) ∧
      (∀ j, j < ([⟨[(10, ⟨⟨10, 0, 100, none⟩⟩)]⟩, ⟨[]⟩] : List Worker).length →
        (([⟨[(10, ⟨⟨10, 0, 100, none⟩⟩)]⟩, ⟨[]⟩] : List Worker).getD i
            emptyWorker).sessions.length ≤
          (([⟨[(10, ⟨⟨10, 0, 100, none⟩⟩)]⟩, ⟨[]⟩] : List Worker).getD j
            emptyWorker).sessions.length) ∧
      (∀ j, j < i →
        (([⟨[(10, ⟨⟨10, 0, 100, none⟩⟩)]⟩, ⟨[]⟩] : List Worker).getD i
            emptyWorker).sessions.length <
          (([⟨[(10, ⟨⟨10, 0, 100, none⟩⟩)]⟩, ⟨[]⟩] : List Worker).getD j
            emptyWorker).sessions.length) :=
  C2_least_load_placement [⟨[(10, ⟨⟨10, 0, 100, none⟩⟩)]⟩, ⟨[]⟩]
    ⟨11, 0, 101, none⟩ (by decide) (by decide)

/-- C3 counterexample: at 5 detected CPU cores the code starts
`5 > 4 ? 4 : ...` = 4 workers, while the claimed formula
`min(4, round(5/1.5)) = min(4, 3)` gives 3. -/
theorem C3_counterexample : numWorkers 5 ≠ specNumWorkers 5 := by decide

/-- C3 (amended): for every detected core count c ≥ 1 the worker count is
between 1 and 4, agrees with `min(4, round(c/1.5))` for every c except
exactly c = 5, and equals 4 there. -/
theorem C3_num_workers_amended (c : Nat) (hc : 1 ≤ c) :
    1 ≤ numWorkers c ∧ numWorkers c ≤ 4 ∧
    (c ≠ 5 → numWorkers c = specNumWorkers c) ∧ numWorkers 5 = 4 := by
  unfold numWorkers specNumWorkers
  refine ⟨?_, ?_, ?_, by decide⟩
  · split <;> omega
  · split <;> omega
  · intro hne
    split
    · have h4 : (4 * c + 3) / 6 ≥ 4 := by omega
      omega
    · have h4 : (4 * c + 3) / 6 ≤ 4 := by omega
      omega

/-- C3 witness: the amended statement instantiated at 6 cores. -/
theorem C3_num_workers_amended_witness :
    1 ≤ numWorkers 6 ∧ numWorkers 6 ≤ 4 ∧
    (6 ≠ 5 → numWorkers 6 = specNumWorkers 6) ∧ numWorkers 5 = 4 :=
  C3_num_workers_amended 6 (by decide)

/-- C5: a stop request for a key registered on no worker synchronously
emits exactly one `'inactive'` event for that key, sends no command to any
worker, and leaves the pool state unchanged. -/
theorem C5_stop_unknown_key (ws : List Worker) (sd : StreamData)
    (habs : getWorkerId ws sd.deviceId < 0) :
    stopLivestream ws sd =
      some (ws, [⟨sd.deviceId, SessState.inactive⟩], []) :=
  stopLivestream_notFound ((getWorkerId_neg_iff ws sd.deviceId).mp habs)

/-- C5 witness: stopping an unknown key on the fresh 2-worker pool. -/
theorem C5_stop_unknown_key_witness :
    stopLivestream (initPool 2) ⟨10, 0, 100, none⟩ =
      some (initPool 2, [⟨(⟨10, 0, 100, none⟩ : StreamData).deviceId,
        SessState.inactive⟩], []) :=
  C5_stop_unknown_key (initPool 2) ⟨10, 0, 100, none⟩ (by decide)

/-- C9: a status report (of any state) whose key is registered on no worker
is a complete no-op: the pool state is unchanged and no event or command is
produced. -/
theorem C9_stale_report_dropped (ws : List Worker) (r : Report)
    (habs : getWorkerId ws r.deviceId = -1) :
    step ws (Event.report r) = some (ws, [], []) := by
  have hnone := (getWorkerId_eq_neg_one_iff ws r.deviceId).mp habs
  show (handleMessage ws r).map (fun q => (q.1, q.2, [])) = _
  rw [handleMessage_notFound hnone]
  rfl

/-- C9 witness: a `'failed'` report for an unregistered key on the fresh
2-worker pool. -/
theorem C9_stale_report_dropped_witness :
    step (initPool 2) (Event.report ⟨10, SessState.failed, 0⟩) =
      some (initPool 2, [], []) :=
  C9_stale_report_dropped (initPool 2) ⟨10, SessState.failed, 0⟩ (by decide)

/-- C10: in every reachable state of a pool with at least one worker, every
registered session record stores the `streamData` of the start request that
created it (with only the `sessionId` correlation field possibly rewritten),
and no processed event can fault: the stop handler's read of the stored
record and the active handler's in-place write both find the record they
dereference. -/
theorem C10_record_safety (n : Nat) (es : List Event) (ws : List Worker)
    (hn : 1 ≤ n) (hrun : runPool (initPool n) es = some ws) :
    StartStored es ws ∧ ∀ e, (step ws e).isSome = true := by
  constructor
  · have h := runPool_startStored hrun (startStored_initPool [] n)
    simpa using h
  · intro e
    apply step_isSome_of_ne_nil
    have hlen : ws.length = n := by
      rw [runPool_length hrun]
      simp [initPool]
    intro hnil
    rw [hnil] at hlen
    simp at hlen
    omega

/-- C10 witness: the 1-worker pool after a processed start request. -/
theorem C10_record_safety_witness :
    StartStored [Event.startReq ⟨10, 0, 100, none⟩]
        [⟨[(10, ⟨⟨10, 0, 100, none⟩⟩)]⟩] ∧
      ∀ e, (step [⟨[(10, ⟨⟨10, 0, 100, none⟩⟩)]⟩] e).isSome = true :=
  C10_record_safety 1 [Event.startReq ⟨10, 0, 100, none⟩]
    [⟨[(10, ⟨⟨10, 0, 100, none⟩⟩)]⟩] (by decide) (by decide)

/-- C4: starting the same key twice with no terminal report in between
registers the key exactly once pool-wide and dispatches exactly one start
command; the second request returns the pool unchanged and sends nothing. -/
theorem C4_idempotent_start (ws : List Worker) (sd : StreamData)
    (hne : ws ≠ []) (habs : getWorkerId ws sd.deviceId < 0) :
    ∃ ws1 i,
      startLivestream ws sd = some (ws1, [], [⟨i, CmdKind.start, sd⟩]) ∧
      ws1.countP (fun w => w.hasSession sd.deviceId) = 1 ∧
      startLivestream ws1 sd = some (ws1, [], []) := by
  cases hmin : (poolLoads ws).min? with
  | none =>
    rw [List.min?_eq_none_iff] at hmin
    exact absurd (by simpa [poolLoads] using hmin) hne
  | some m =>
    have hcount : (modifyIdx ws (pickWorker ws m)
        (fun w => ⟨(sd.deviceId, ⟨sd⟩) :: w.sessions⟩)).countP
          (fun w => w.hasSession sd.deviceId) = 1 :=
      countP_modifyIdx_one _ _ _ _
        (countP_zero_of_getWorkerId_neg ws _ habs)
        (pickWorker_lt_length hmin)
        (fun a => hasSession_insert_self a sd)
    refine ⟨_, pickWorker ws m, startLivestream_absent habs hmin, hcount, ?_⟩
    apply startLivestream_present
    apply getWorkerId_not_neg_of_countP_pos
    rw [hcount]
    omega

/-- C4 witness: two successive starts of the same key on the fresh
2-worker pool. -/
theorem C4_idempotent_start_witness :
    ∃ ws1 i,
      startLivestream (initPool 2) ⟨10, 0, 100, none⟩ =
        some (ws1, [], [⟨i, CmdKind.start, ⟨10, 0, 100, none⟩⟩]) ∧
      ws1.countP (fun w =>
        w.hasSession (⟨10, 0, 100, none⟩ : StreamData).deviceId) = 1 ∧
      startLivestream ws1 ⟨10, 0, 100, none⟩ = some (ws1, [], []) :=
  C4_idempotent_start (initPool 2) ⟨10, 0, 100, none⟩ (by decide) (by decide)

/-- C6: a stop request for a key held by worker `i` sends that worker a
stop command carrying the `streamData` stored in the session record at
start time (not the stop request's own payload), and leaves the pool state
— hence every worker's registry — unchanged. -/
theorem C6_stop_uses_stored_payload (ws : List Worker) (sd : StreamData)
    (i : Nat)
    (hfound : ws.findIdx? (fun w => w.hasSession sd.deviceId) = some i) :
    ∃ sess, (ws.getD i emptyWorker).sessions.lookup sd.deviceId = some sess ∧
      stopLivestream ws sd =
        some (ws, [], [⟨i, CmdKind.stop, sess.streamData⟩]) :=
  stopLivestream_found hfound

/-- C6 witness: the stop request carries payload 999 but the dispatched
command carries the stored payload 100. -/
theorem C6_stop_uses_stored_payload_witness :
    ∃ sess, (([⟨[(10, ⟨⟨10, 0, 100, none⟩⟩)]⟩, ⟨[]⟩] : List Worker).getD 0
        emptyWorker).sessions.lookup
          (⟨10, 0, 999, none⟩ : StreamData).deviceId = some sess ∧
      stopLivestream [⟨[(10, ⟨⟨10, 0, 100, none⟩⟩)]⟩, ⟨[]⟩] ⟨10, 0, 999, none⟩ =
        some ([⟨[(10, ⟨⟨10, 0, 100, none⟩⟩)]⟩, ⟨[]⟩], [],
          [⟨0, CmdKind.stop, sess.streamData⟩]) :=
  C6_stop_uses_stored_payload [⟨[(10, ⟨⟨10, 0, 100, none⟩⟩)]⟩, ⟨[]⟩]
    ⟨10, 0, 999, none⟩ 0 (by decide)

/-- C7: a terminal (`'inactive'` / `'failed'`) report for a key held by
worker `i` emits exactly one event for that key carrying the same state,
deletes the record from worker `i`, leaves every other worker and every
other key of worker `i` unchanged, and afterwards the key is registered on
no worker. -/
theorem C7_terminal_report_removes (ws : List Worker) (r : Report) (i : Nat)
    (hterm : r.state = SessState.inactive ∨ r.state = SessState.failed)
    (hfound : ws.findIdx? (fun w => w.hasSession r.deviceId) = some i)
    (huniq : ws.countP (fun w => w.hasSession r.deviceId) ≤ 1) :
    handleMessage ws r =
      some (modifyIdx ws i (fun w => ⟨eraseSession w.sessions r.deviceId⟩),
            [⟨r.deviceId, r.state⟩]) ∧
    (∀ j, j ≠ i →
      (modifyIdx ws i
          (fun w => ⟨eraseSession w.sessions r.deviceId⟩)).getD j emptyWorker =
        ws.getD j emptyWorker) ∧
    (∀ d, d ≠ r.deviceId →
      ((modifyIdx ws i
          (fun w => ⟨eraseSession w.sessions r.deviceId⟩)).getD i
            emptyWorker).sessions.lookup d =
        (ws.getD i emptyWorker).sessions.lookup d) ∧
    getWorkerId (modifyIdx ws i
      (fun w => ⟨eraseSession w.sessions r.deviceId⟩)) r.deviceId = -1 := by
  obtain ⟨hi, hp, -⟩ := List.findIdx?_eq_some_iff_getElem.mp hfound
  refine ⟨?_, ?_, ?_, ?_⟩
  · rcases hterm with hst | hst
    · rw [hst]
      exact handleMessage_inactive hfound hst
    · rw [hst]
      exact handleMessage_failed hfound hst
  · intro j hj
    exact getD_modifyIdx_ne ws i j _ emptyWorker hj
  · intro d hd
    rw [getD_modifyIdx_self ws i _ emptyWorker hi]
    show (eraseSession (ws.getD i emptyWorker).sessions r.deviceId).lookup d = _
    exact lookup_eraseSession_ne _ hd
  · apply getWorkerId_eq_neg_one_of_countP_zero
    exact countP_modifyIdx_zero_out _ _ _ _ huniq hi (by simpa using hp)
      (fun a => hasSession_eraseSession_self a r.deviceId)

/-- C7 witness: a `'failed'` report for the only registered key of a
2-worker pool. -/
theorem C7_terminal_report_removes_witness :
    handleMessage [⟨[(10, ⟨⟨10, 0, 100, none⟩⟩)]⟩, ⟨[]⟩]
        ⟨10, SessState.failed, 0⟩ =
      some (modifyIdx [⟨[(10, ⟨⟨10, 0, 100, none⟩⟩)]⟩, ⟨[]⟩] 0
              (fun w => ⟨eraseSession w.sessions
                (⟨10, SessState.failed, 0⟩ : Report).deviceId⟩),
            [⟨(⟨10, SessState.failed, 0⟩ : Report).deviceId,
              (⟨10, SessState.failed, 0⟩ : Report).state⟩]) ∧
    (∀ j, j ≠ 0 →
      (modifyIdx [⟨[(10, ⟨⟨10, 0, 100, none⟩⟩)]⟩, ⟨[]⟩] 0
          (fun w => ⟨eraseSession w.sessions
            (⟨10, SessState.failed, 0⟩ : Report).deviceId⟩)).getD j emptyWorker =
        ([⟨[(10, ⟨⟨10, 0, 100, none⟩⟩)]⟩, ⟨[]⟩] : List Worker).getD j
          emptyWorker) ∧
    (∀ d, d ≠ (⟨10, SessState.failed, 0⟩ : Report).deviceId →
      ((modifyIdx [⟨[(10, ⟨⟨10, 0, 100, none⟩⟩)]⟩, ⟨[]⟩] 0
          (fun w => ⟨eraseSession w.sessions
            (⟨10, SessState.failed, 0⟩ : Report).deviceId⟩)).getD 0
              emptyWorker).sessions.lookup d =
        (([⟨[(10, ⟨⟨10, 0, 100, none⟩⟩)]⟩, ⟨[]⟩] : List Worker).getD 0
          emptyWorker).sessions.lookup d) ∧
    getWorkerId (modifyIdx [⟨[(10, ⟨⟨10, 0, 100, none⟩⟩)]⟩, ⟨[]⟩] 0
      (fun w => ⟨eraseSession w.sessions
        (⟨10, SessState.failed, 0⟩ : Report).deviceId⟩))
      (⟨10, SessState.failed, 0⟩ : Report).deviceId = -1 :=
  C7_terminal_report_removes [⟨[(10, ⟨⟨10, 0, 100, none⟩⟩)]⟩, ⟨[]⟩]
    ⟨10, SessState.failed, 0⟩ 0 (Or.inr rfl) (by decide) (by decide)

/-- C8: an `'active'` report for a key held by worker `i` emits exactly one
`'active'` event for that key and rewrites only that record's correlation
field to the reported session id; the key stays registered on worker `i`,
every other worker and every other key of worker `i` are unchanged. -/
theorem C8_active_report_stores (ws : List Worker) (r : Report) (i : Nat)
    (hst : r.state = SessState.active)
    (hfound : ws.findIdx? (fun w => w.hasSession r.deviceId) = some i) :
    ∃ sess, (ws.getD i emptyWorker).sessions.lookup r.deviceId = some sess ∧
      handleMessage ws r =
        some (modifyIdx ws i
                (fun w => ⟨setSessionId w.sessions r.deviceId r.sessionId⟩),
              [⟨r.deviceId, SessState.active⟩]) ∧
      ((modifyIdx ws i
          (fun w => ⟨setSessionId w.sessions r.deviceId r.sessionId⟩)).getD i
            emptyWorker).sessions.lookup r.deviceId =
        some ⟨{ sess.streamData with sessionId := some r.sessionId }⟩ ∧
      (∀ j, j ≠ i →
        (modifyIdx ws i
            (fun w => ⟨setSessionId w.sessions r.deviceId r.sessionId⟩)).getD j
              emptyWorker =
          ws.getD j emptyWorker) ∧
      (∀ d, d ≠ r.deviceId →
        ((modifyIdx ws i
            (fun w => ⟨setSessionId w.sessions r.deviceId r.sessionId⟩)).getD i
              emptyWorker).sessions.lookup d =
          (ws.getD i emptyWorker).sessions.lookup d) := by
  obtain ⟨hi, hp⟩ := findIdx?_getElem_hasSession hfound
  obtain ⟨sess, hsess⟩ := Option.isSome_iff_exists.mp
    (show ((ws.getD i emptyWorker).sessions.lookup r.deviceId).isSome = true
      from hp)
  refine ⟨sess, hsess, handleMessage_active hfound hst, ?_, ?_, ?_⟩
  · rw [getD_modifyIdx_self ws i _ emptyWorker hi]
    show (setSessionId (ws.getD i emptyWorker).sessions r.deviceId
      r.sessionId).lookup r.deviceId = _
    exact lookup_setSessionId_self _ _ _ sess hsess
  · intro j hj
    exact getD_modifyIdx_ne ws i j _ emptyWorker hj
  · intro d hd
    rw [getD_modifyIdx_self ws i _ emptyWorker hi]
    show (setSessionId (ws.getD i emptyWorker).sessions r.deviceId
      r.sessionId).lookup d = _
    exact lookup_setSessionId_ne _ _ hd

/-- C8 witness: an `'active'` report with session id 77 for the only
registered key of a 2-worker pool. -/
theorem C8_active_report_stores_witness :
    ∃ sess, (([⟨[(10, ⟨⟨10, 0, 100, none⟩⟩)]⟩, ⟨[]⟩] : List Worker).getD 0
        emptyWorker).sessions.lookup
          (⟨10, SessState.active, 77⟩ : Report).deviceId = some sess ∧
      handleMessage [⟨[(10, ⟨⟨10, 0, 100, none⟩⟩)]⟩, ⟨[]⟩]
          ⟨10, SessState.active, 77⟩ =
        some (modifyIdx [⟨[(10, ⟨⟨10, 0, 100, none⟩⟩)]⟩, ⟨[]⟩] 0
                (fun w => ⟨setSessionId w.sessions
                  (⟨10, SessState.active, 77⟩ : Report).deviceId
                  (⟨10, SessState.active, 77⟩ : Report).sessionId⟩),
              [⟨(⟨10, SessState.active, 77⟩ : Report).deviceId,
                SessState.active⟩]) ∧
      ((modifyIdx [⟨[(10, ⟨⟨10, 0, 100, none⟩⟩)]⟩, ⟨[]⟩] 0
          (fun w => ⟨setSessionId w.sessions
            (⟨10, SessState.active, 77⟩ : Report).deviceId
            (⟨10, SessState.active, 77⟩ : Report).sessionId⟩)).getD 0
            emptyWorker).sessions.lookup
          (⟨10, SessState.active, 77⟩ : Report).deviceId =
        some ⟨{ sess.streamData with
          sessionId := some (⟨10, SessState.active, 77⟩ : Report).sessionId }⟩ ∧
      (∀ j, j ≠ 0 →
        (modifyIdx [⟨[(10, ⟨⟨10, 0, 100, none⟩⟩)]⟩, ⟨[]⟩] 0
            (fun w => ⟨setSessionId w.sessions
              (⟨10, SessState.active, 77⟩ : Report).deviceId
              (⟨10, SessState.active, 77⟩ : Report).sessionId⟩)).getD j
              emptyWorker =
          ([⟨[(10, ⟨⟨10, 0, 100, none⟩⟩)]⟩, ⟨[]⟩] : List Worker).getD j
            emptyWorker) ∧
      (∀ d, d ≠ (⟨10, SessState.active, 77⟩ : Report).deviceId →
        ((modifyIdx [⟨[(10, ⟨⟨10, 0, 100, none⟩⟩)]⟩, ⟨[]⟩] 0
            (fun w => ⟨setSessionId w.sessions
              (⟨10, SessState.active, 77⟩ : Report).deviceId
              (⟨10, SessState.active, 77⟩ : Report).sessionId⟩)).getD 0
              emptyWorker).sessions.lookup d =
          (([⟨[(10, ⟨⟨10, 0, 100, none⟩⟩)]⟩, ⟨[]⟩] : List Worker).getD 0
            emptyWorker).sessions.lookup d) :=
  C8_active_report_stores [⟨[(10, ⟨⟨10, 0, 100, none⟩⟩)]⟩, ⟨[]⟩]
    ⟨10, SessState.active, 77⟩ 0 rfl (by decide)

end StreamWorkers
